import Mathlib

/-!
Shallow embedding of `packages/services/src/session/manager.ts`
(the `SessionManager` session reconciliation engine) and proofs of
properties of its refresh/diff algorithm, shutdown operations, lookup
operations and disposal.

Modelling conventions:
* A `Session.IModel` becomes the structure `SessionModel`; the JS
  `JSONExt.deepEqual` on models becomes structural equality
  (models are plain JSON data, so this is exact).
* The JS `Map<string, IModel>` (`this._models`) becomes an association
  list `ModelMap` together with `set`/`get`/`hasKey` mirroring JS `Map`
  semantics (insertion order kept, `set` on an existing key overwrites
  in place, `new Map(entries)` folds `set` over the entries).
* The `Set<ISessionConnection>` (`this._sessionConnections`) becomes a
  list of `Conn` values carrying a distinguishing `token` and the
  session `id` the connection is bound to; `forEach` iterates in list
  order, matching JS `Set` insertion-order iteration.
* Asynchronous effects are made explicit: `requestRunning` consumes a
  `FetchResult` (the outcome of `listRunning`) and returns the new
  state together with the lists of emitted `connectionFailure` signals,
  emitted `runningChanged` signals, the `update`/`dispose` calls made on
  registered connections, and the error it throws, if any.
* For `shutdown` / `shutdownAll` / `stopIfNeeded` the remote server is
  an explicit `Server` state, and the outcome of each
  `shutdownSession id` REST call is given by a `StopOracle`.
-/

/-- Kernel descriptor inside a session model (`model.kernel`). -/
structure KernelModel where
  id : String
  name : String
deriving DecidableEq, Repr

/-- A session model as returned by the server (`Session.IModel`). -/
structure SessionModel where
  id : String
  path : String
  kernel : Option KernelModel
deriving DecidableEq, Repr

/-- The local model map `this._models : Map<string, Session.IModel>`,
as an insertion-ordered association list. -/
abbrev ModelMap := List (String × SessionModel)

namespace ModelMap

/-- `Map.prototype.get`. -/
def get (m : ModelMap) (k : String) : Option SessionModel :=
  match m with
  | [] => none
  | (k1, v) :: rest => if k1 = k then some v else get rest k

/-- `Map.prototype.has`. -/
def hasKey (m : ModelMap) (k : String) : Bool :=
  match m with
  | [] => false
  | (k1, _) :: rest => k1 = k || hasKey rest k

/-- `Map.prototype.size`. -/
def size (m : ModelMap) : Nat := m.length

/-- `Map.prototype.set`: overwrite in place if the key is present,
else append. -/
def set (m : ModelMap) (k : String) (v : SessionModel) : ModelMap :=
  match m with
  | [] => [(k, v)]
  | (k1, v1) :: rest =>
    if k1 = k then (k1, v) :: rest else (k1, v1) :: set rest k v

/-- `Map.prototype.keys`, as a list. -/
def keys (m : ModelMap) : List String := m.map (·.1)

/-- `Map.prototype.values`, as a list. -/
def values (m : ModelMap) : List SessionModel := m.map (·.2)

end ModelMap

/-- `new Map(models.map(x => [x.id, x]))`: build a map keyed by model
id; later duplicates overwrite earlier ones. -/
def mapOfModels (models : List SessionModel) : ModelMap :=
  models.foldl (fun m x => m.set x.id x) []

/-- A registered session connection (`this._sessionConnections` entry):
`token` distinguishes connection objects, `id` is `sc.id`. -/
structure Conn where
  token : Nat
  id : String
deriving DecidableEq, Repr

/-- A JS error as classified by `requestRunning`: whether it is a
`ServerConnection.NetworkError`, and `err.response.status` when an HTTP
response is attached. -/
structure JSError where
  isNetworkError : Bool
  responseStatus : Option Nat
deriving DecidableEq, Repr

/-- The classification in `requestRunning`'s catch block:
`err instanceof ServerConnection.NetworkError || (err.response &&
err.response.status === 503)`. -/
def isConnectionFailure (e : JSError) : Bool :=
  e.isNetworkError || e.responseStatus == some 503

/-- The outcome of the `listRunning` REST call. -/
inductive FetchResult where
  | ok (models : List SessionModel)
  | err (e : JSError)
deriving DecidableEq, Repr

/-- The mutable state of a `SessionManager` relevant to reconciliation. -/
structure ManagerState where
  isDisposed : Bool
  models : ModelMap
  conns : List Conn
deriving DecidableEq, Repr

/-- An `update`/`dispose` call made on a registered connection. -/
inductive ConnEvent where
  | update (token : Nat) (model : SessionModel)
  | dispose (token : Nat)
deriving DecidableEq, Repr

/-- Everything one `requestRunning` run produces: the state after the
run, the `connectionFailure` emissions, the `runningChanged` emissions,
the calls made on registered connections (in order), and the thrown
error, if any. -/
structure RunResult where
  state : ManagerState
  connectionFailureEmits : List JSError
  runningChangedEmits : List (List SessionModel)
  connEvents : List ConnEvent
  thrown : Option JSError
deriving DecidableEq, Repr

/-- The short-circuit test in `requestRunning`:
`this._models.size === models.length && every(models, x =>
JSONExt.deepEqual(this._models.get(x.id), x))`.  `deepEqual` of
`undefined` against a model object is `false`, hence the `none` case. -/
def shortCircuit (m : ModelMap) (models : List SessionModel) : Bool :=
  m.size == models.length &&
    models.all (fun x =>
      match m.get x.id with
      | some y => y == x
      | none => false)

/-- The per-connection fan-out in `requestRunning`: for each registered
connection, `update` with the new map's model when its id is present,
else `dispose`. -/
def fanOut (newMap : ModelMap) (conns : List Conn) : List ConnEvent :=
  conns.map (fun sc =>
    match newMap.get sc.id with
    | some m => ConnEvent.update sc.token m
    | none => ConnEvent.dispose sc.token)

/-- `SessionManager.requestRunning`, with the outcome of `listRunning`
made an explicit argument.  Mirrors the source: on fetch failure, emit
`connectionFailure` when the error is a network error or carries HTTP
status 503, then rethrow (the `models = []` assignment in the catch
block is dead, as the rethrow follows unconditionally); on success,
abort if disposed; short-circuit when the fetched list matches the map;
otherwise replace the map wholesale, fan out update/dispose calls, and
emit `runningChanged` with the fetched list. -/
def requestRunning (s : ManagerState) (fetch : FetchResult) : RunResult :=
  match fetch with
  | .err e =>
    { state := s
      connectionFailureEmits := if isConnectionFailure e then [e] else []
      runningChangedEmits := []
      connEvents := []
      thrown := some e }
  | .ok models =>
    if s.isDisposed then
      { state := s, connectionFailureEmits := [], runningChangedEmits := []
        connEvents := [], thrown := none }
    else if shortCircuit s.models models then
      { state := s, connectionFailureEmits := [], runningChangedEmits := []
        connEvents := [], thrown := none }
    else
      let newMap := mapOfModels models
      { state := { s with models := newMap }
        connectionFailureEmits := []
        runningChangedEmits := [models]
        connEvents := fanOut newMap s.conns
        thrown := none }

/-- `SessionManager.running()`: snapshot of the map's values. -/
def running (s : ManagerState) : List SessionModel := s.models.values

/-- The remote server's authoritative session list. -/
structure Server where
  sessions : List SessionModel
deriving DecidableEq, Repr

/-- The outcome of one `shutdownSession id` REST call: the error it
rejects with (if any), and whether the server actually removed the
session.  Removal and rejection are independent, matching the spec:
a session's absence "depends only on whether the server actually
removed it". -/
structure StopOutcome where
  error : Option JSError
  removed : Bool
deriving DecidableEq, Repr

/-- Per-id outcomes of `shutdownSession` calls. -/
abbrev StopOracle := String → StopOutcome

/-- Effect of one `shutdownSession id` call on the server: remove every
session with that id when the oracle says the server removed it. -/
def applyStop (sv : Server) (oracle : StopOracle) (id : String) : Server :=
  if (oracle id).removed then
    { sessions := sv.sessions.filter (fun m => ¬ m.id = id) }
  else sv

/-- Result of a manager operation that talks to the server: the manager
state and server state afterwards, how many `refreshRunning` rounds
completed, the ids for which a stop call was issued, and the error the
operation rejects with, if any. -/
structure OpResult where
  mgr : ManagerState
  server : Server
  refreshes : Nat
  stopsAttempted : List String
  thrown : Option JSError
deriving DecidableEq, Repr

/-- `SessionManager.shutdown(id)`:
`await shutdownSession(id, ...); await this.refreshRunning();`.
A rejected `shutdownSession` makes the first `await` throw, so the
refresh is reached only when the stop call succeeds.  The refresh's
listing is the server's (post-stop) session list. -/
def shutdown (s : ManagerState) (sv : Server) (oracle : StopOracle)
    (id : String) : OpResult :=
  let sv1 := applyStop sv oracle id
  match (oracle id).error with
  | some e =>
    { mgr := s, server := sv1, refreshes := 0, stopsAttempted := [id]
      thrown := some e }
  | none =>
    let r := requestRunning s (.ok sv1.sessions)
    { mgr := r.state, server := sv1, refreshes := 1, stopsAttempted := [id]
      thrown := r.thrown }

/-- `SessionManager.shutdownAll()`: refresh, issue a stop call for every
id currently in the map, `await Promise.all(...)`, then refresh again.
All stops are issued (each promise starts before the aggregate is
awaited); when any rejects, `Promise.all` rejects with the first
rejection, the `await` throws, and the final refresh is skipped. -/
def shutdownAll (s : ManagerState) (sv : Server) (oracle : StopOracle) :
    OpResult :=
  let r1 := requestRunning s (.ok sv.sessions)
  let ids := r1.state.models.keys
  let sv1 := ids.foldl (fun acc id => applyStop acc oracle id) sv
  match ids.find? (fun id => ((oracle id).error).isSome) with
  | some f =>
    { mgr := r1.state, server := sv1, refreshes := 1, stopsAttempted := ids
      thrown := (oracle f).error }
  | none =>
    let r2 := requestRunning r1.state (.ok sv1.sessions)
    { mgr := r2.state, server := sv1, refreshes := 2, stopsAttempted := ids
      thrown := r2.thrown }

/-- `SessionManager.stopIfNeeded(path)`: list sessions fresh from the
server (this listing itself may reject, modelled by `listErr`), filter
by path; when exactly one matches, `shutdown` it; every error — from
the listing or from the shutdown — is caught and discarded. -/
def stopIfNeeded (s : ManagerState) (sv : Server) (oracle : StopOracle)
    (listErr : Option JSError) (path : String) : OpResult :=
  match listErr with
  | some _ =>
    { mgr := s, server := sv, refreshes := 0, stopsAttempted := []
      thrown := none }
  | none =>
    match sv.sessions.filter (fun v => v.path == path) with
    | [m] =>
      let r := shutdown s sv oracle m.id
      { r with thrown := none }
    | _ =>
      { mgr := s, server := sv, refreshes := 0, stopsAttempted := []
        thrown := none }

/-- Result of `findById` / `findByPath`: the model found (absent both
when the lookup misses and when a refresh rejects), the state after,
how many refreshes ran, and the propagated refresh error, if any. -/
structure FindResult where
  found : Option SessionModel
  state : ManagerState
  refreshes : Nat
  thrown : Option JSError
deriving DecidableEq, Repr

/-- `SessionManager.findById(id)`: return the cached model when the map
has the id; otherwise refresh once (its listing outcome is `fetch`) and
retry the lookup over the refreshed map. -/
def findById (s : ManagerState) (fetch : FetchResult) (id : String) :
    FindResult :=
  if s.models.hasKey id then
    { found := s.models.get id, state := s, refreshes := 0, thrown := none }
  else
    let r := requestRunning s fetch
    match r.thrown with
    | some e => { found := none, state := r.state, refreshes := 1, thrown := some e }
    | none => { found := r.state.models.get id, state := r.state, refreshes := 1
                thrown := none }

/-- `SessionManager.findByPath(path)`: linear scan of the map's values
for the first model at `path`; on a miss, refresh once and rescan. -/
def findByPath (s : ManagerState) (fetch : FetchResult) (path : String) :
    FindResult :=
  match s.models.values.find? (fun m => m.path == path) with
  | some m => { found := some m, state := s, refreshes := 0, thrown := none }
  | none =>
    let r := requestRunning s fetch
    match r.thrown with
    | some e => { found := none, state := r.state, refreshes := 1, thrown := some e }
    | none => { found := r.state.models.values.find? (fun m => m.path == path)
                state := r.state, refreshes := 1, thrown := none }

/-- Result of `SessionManager.dispose()`: the state afterwards, the
calls made on registered connections, the `runningChanged` emissions,
and whether the poller was disposed. -/
structure DisposeResult where
  state : ManagerState
  connEvents : List ConnEvent
  runningChangedEmits : List (List SessionModel)
  pollerDisposed : Bool
deriving DecidableEq, Repr

/-- `SessionManager.dispose()`: clear the model map, dispose every
registered connection (each is then deregistered by its `disposed`
handler), dispose the poller, and mark the manager disposed; nothing
in this path emits `runningChanged`. -/
def disposeManager (s : ManagerState) : DisposeResult :=
  { state := { isDisposed := true, models := [], conns := [] }
    connEvents := s.conns.map (fun c => ConnEvent.dispose c.token)
    runningChangedEmits := []
    pollerDisposed := true }

/-- Well-formedness of the local model map, true in every reachable
state: keys are pairwise distinct (a JS `Map` invariant) and each
entry's value carries the entry's key as its id (the map is only ever
assigned `new Map(models.map(x => [x.id, x]))` or cleared). -/
def WFMap (m : ModelMap) : Prop :=
  m.keys.Nodup ∧ ∀ p ∈ m, (p.2).id = p.1

instance : DecidablePred WFMap := fun m =>
  inferInstanceAs (Decidable (m.keys.Nodup ∧ ∀ p ∈ m, (p.2).id = p.1))

/-! ### Lemmas about the map embedding -/

theorem ModelMap.get_set (m : ModelMap) (k k1 : String) (v : SessionModel) :
    (m.set k v).get k1 = if k = k1 then some v else m.get k1 := by
  induction m with
  | nil =>
    simp only [ModelMap.set, ModelMap.get]
  | cons p rest ih =>
    obtain ⟨k2, v2⟩ := p
    simp only [ModelMap.set]
    by_cases h2 : k2 = k
    · subst h2
      simp only [if_pos rfl, ModelMap.get]
      by_cases h1 : k2 = k1 <;> simp [h1]
    · rw [if_neg h2]
      simp only [ModelMap.get, ih]
      by_cases h1 : k2 = k1
      · have hk : ¬ k = k1 := fun h => h2 (h1.trans h.symm)
        simp [h1, hk]
      · simp [h1]

theorem ModelMap.hasKey_eq_isSome_get (m : ModelMap) (k : String) :
    m.hasKey k = (m.get k).isSome := by
  induction m with
  | nil => rfl
  | cons p rest ih =>
    obtain ⟨k1, v⟩ := p
    by_cases h : k1 = k
    · simp [ModelMap.hasKey, ModelMap.get, h]
    · simp [ModelMap.hasKey, ModelMap.get, h, ih]

theorem ModelMap.mem_keys_of_get (m : ModelMap) (k : String) {v : SessionModel}
    (h : m.get k = some v) : k ∈ m.keys := by
  induction m with
  | nil => simp [ModelMap.get] at h
  | cons p rest ih =>
    obtain ⟨k1, v1⟩ := p
    by_cases h1 : k1 = k
    · subst h1
      simp [ModelMap.keys]
    · simp only [ModelMap.get, if_neg h1] at h
      simp only [ModelMap.keys, List.map_cons, List.mem_cons]
      exact Or.inr (ih h)

theorem ModelMap.hasKey_iff_mem_keys (m : ModelMap) (k : String) :
    m.hasKey k = true ↔ k ∈ m.keys := by
  induction m with
  | nil => simp [ModelMap.hasKey, ModelMap.keys]
  | cons p rest ih =>
    obtain ⟨k1, v1⟩ := p
    by_cases h1 : k1 = k
    · subst h1; simp [ModelMap.hasKey, ModelMap.keys]
    · simp [ModelMap.hasKey, ModelMap.keys, h1, ih, Ne.symm h1]

theorem ModelMap.get_eq_none_of_not_mem_keys (m : ModelMap) (k : String)
    (h : k ∉ m.keys) : m.get k = none := by
  cases hg : m.get k with
  | none => rfl
  | some v => exact absurd (m.mem_keys_of_get k hg) h

theorem ModelMap.keys_length (m : ModelMap) : m.keys.length = m.length :=
  List.length_map _ _

theorem ModelMap.keys_set (m : ModelMap) (k : String) (v : SessionModel) :
    (m.set k v).keys = if k ∈ m.keys then m.keys else m.keys ++ [k] := by
  induction m with
  | nil => simp [ModelMap.set, ModelMap.keys]
  | cons p rest ih =>
    obtain ⟨k1, v1⟩ := p
    by_cases h1 : k1 = k
    · subst h1; simp [ModelMap.set, ModelMap.keys]
    · have hne : ¬ k = k1 := fun h => h1 h.symm
      simp only [ModelMap.set, if_neg h1, ModelMap.keys, List.map_cons] at *
      rw [ih]
      by_cases hm : k ∈ List.map (fun x => x.1) rest
      · rw [if_pos hm, if_pos (List.mem_cons_of_mem _ hm)]
      · rw [if_neg hm, if_neg (by simp [hne, hm]), List.cons_append]

theorem ModelMap.keys_set_nodup (m : ModelMap) (k : String) (v : SessionModel)
    (h : m.keys.Nodup) : (m.set k v).keys.Nodup := by
  rw [ModelMap.keys_set]
  by_cases hm : k ∈ m.keys
  · simpa [hm]
  · simp only [if_neg hm]
    exact List.Nodup.append h (List.nodup_singleton k)
      (by simpa [List.disjoint_singleton] using hm)

theorem ModelMap.mem_set (m : ModelMap) (k : String) (v : SessionModel)
    (p : String × SessionModel) (h : p ∈ m.set k v) : p ∈ m ∨ p = (k, v) := by
  induction m with
  | nil =>
    simp only [ModelMap.set, List.mem_singleton] at h
    exact Or.inr h
  | cons q rest ih =>
    obtain ⟨k1, v1⟩ := q
    by_cases h1 : k1 = k
    · simp only [ModelMap.set, if_pos h1] at h
      rcases List.mem_cons.mp h with h | h
      · exact Or.inr (by rw [h, h1])
      · exact Or.inl (List.mem_cons_of_mem _ h)
    · simp only [ModelMap.set, if_neg h1] at h
      rcases List.mem_cons.mp h with h | h
      · exact Or.inl (by rw [h]; exact List.mem_cons_self _ _)
      · rcases ih h with h2 | h2
        · exact Or.inl (List.mem_cons_of_mem _ h2)
        · exact Or.inr h2

/-! ### Lemmas about `mapOfModels` (the wholesale map replacement) -/

theorem mapOfModels_get (L : List SessionModel) (k : String) :
    (mapOfModels L).get k = L.reverse.find? (fun x => x.id == k) := by
  induction L using List.reverseRecOn with
  | nil => rfl
  | append_singleton L x ih =>
    simp only [mapOfModels, List.foldl_append, List.foldl_cons,
      List.foldl_nil] at ih ⊢
    rw [ModelMap.get_set, List.reverse_append]
    simp only [List.reverse_singleton, List.singleton_append, List.find?_cons]
    by_cases hx : x.id = k
    · simp [hx]
    · have hb : (x.id == k) = false := by simp [hx]
      simp [hx, hb, ih]

theorem mapOfModels_keys_nodup_aux (L : List SessionModel) (acc : ModelMap)
    (h : acc.keys.Nodup) : (L.foldl (fun m x => m.set x.id x) acc).keys.Nodup := by
  induction L generalizing acc with
  | nil => simpa using h
  | cons x L ih => exact ih _ (ModelMap.keys_set_nodup _ _ _ h)

theorem mapOfModels_keys_nodup (L : List SessionModel) :
    (mapOfModels L).keys.Nodup :=
  mapOfModels_keys_nodup_aux L [] List.nodup_nil

theorem mem_mapOfModels_aux (L : List SessionModel) (acc : ModelMap)
    (p : String × SessionModel)
    (h : p ∈ L.foldl (fun m x => m.set x.id x) acc) :
    p ∈ acc ∨ ∃ x ∈ L, p = (x.id, x) := by
  induction L generalizing acc with
  | nil => exact Or.inl (by simpa using h)
  | cons x L ih =>
    rcases ih (acc.set x.id x) (by simpa using h) with h1 | h1
    · rcases ModelMap.mem_set _ _ _ _ h1 with h2 | h2
      · exact Or.inl h2
      · exact Or.inr ⟨x, List.mem_cons_self _ _, h2⟩
    · rcases h1 with ⟨y, hy, hp⟩
      exact Or.inr ⟨y, List.mem_cons_of_mem _ hy, hp⟩

theorem mem_mapOfModels (L : List SessionModel) (p : String × SessionModel)
    (h : p ∈ mapOfModels L) : ∃ x ∈ L, p = (x.id, x) := by
  rcases mem_mapOfModels_aux L [] p h with h1 | h1
  · simp at h1
  · exact h1

theorem WFMap_mapOfModels (L : List SessionModel) : WFMap (mapOfModels L) := by
  refine ⟨mapOfModels_keys_nodup L, fun p hp => ?_⟩
  rcases mem_mapOfModels L p hp with ⟨x, _, rfl⟩
  rfl

theorem mem_values_mapOfModels (L : List SessionModel) (v : SessionModel)
    (h : v ∈ (mapOfModels L).values) : v ∈ L := by
  rcases List.mem_map.mp h with ⟨p, hp, hpv⟩
  rcases mem_mapOfModels L p hp with ⟨x, hx, rfl⟩
  rw [← hpv]
  exact hx

/-! ### Lemmas about `requestRunning` -/

theorem requestRunning_isDisposed (s : ManagerState) (f : FetchResult) :
    (requestRunning s f).state.isDisposed = s.isDisposed := by
  cases f with
  | err e => rfl
  | ok models =>
    by_cases hd : s.isDisposed <;> by_cases hsc : shortCircuit s.models models <;>
      simp [requestRunning, hd, hsc]

theorem requestRunning_ok_thrown (s : ManagerState) (L : List SessionModel) :
    (requestRunning s (.ok L)).thrown = none := by
  by_cases hd : s.isDisposed <;> by_cases hsc : shortCircuit s.models L <;>
    simp [requestRunning, hd, hsc]

theorem requestRunning_wf (s : ManagerState) (f : FetchResult)
    (h : WFMap s.models) : WFMap (requestRunning s f).state.models := by
  cases f with
  | err e => exact h
  | ok models =>
    by_cases hd : s.isDisposed
    · simpa [requestRunning, hd] using h
    · by_cases hsc : shortCircuit s.models models
      · simpa [requestRunning, hd, hsc] using h
      · simpa [requestRunning, hd, hsc] using WFMap_mapOfModels models

theorem shortCircuit_iff (m : ModelMap) (L : List SessionModel) :
    shortCircuit m L = true ↔
      m.size = L.length ∧ ∀ x ∈ L, m.get x.id = some x := by
  unfold shortCircuit
  rw [Bool.and_eq_true, beq_iff_eq, List.all_eq_true]
  constructor
  · rintro ⟨h1, h2⟩
    refine ⟨h1, fun x hx => ?_⟩
    have hy := h2 x hx
    cases hg : m.get x.id with
    | none => rw [hg] at hy; cases hy
    | some y =>
      rw [hg] at hy
      simp only [beq_iff_eq] at hy
      rw [hy]
  · rintro ⟨h1, h2⟩
    refine ⟨h1, fun x hx => ?_⟩
    rw [h2 x hx]
    simp

theorem shortCircuit_keys (m : ModelMap) (L : List SessionModel)
    (hnk : m.keys.Nodup) (hnm : (L.map (fun x => x.id)).Nodup)
    (hsc : shortCircuit m L = true) :
    ∀ k ∈ m.keys, k ∈ L.map (fun x => x.id) := by
  rcases (shortCircuit_iff m L).mp hsc with ⟨hlen, hall⟩
  have hsub : L.map (fun x => x.id) ⊆ m.keys := by
    intro k hk
    rcases List.mem_map.mp hk with ⟨x, hx, rfl⟩
    exact ModelMap.mem_keys_of_get m x.id (hall x hx)
  have hfin : (L.map (fun x => x.id)).toFinset ⊆ m.keys.toFinset := by
    intro k hk
    rw [List.mem_toFinset] at *
    exact hsub hk
  have hcard1 : (L.map (fun x => x.id)).toFinset.card = L.length := by
    rw [List.toFinset_card_of_nodup hnm, List.length_map]
  have hcard2 : m.keys.toFinset.card = m.length := by
    rw [List.toFinset_card_of_nodup hnk, ModelMap.keys_length]
  have heq : (L.map (fun x => x.id)).toFinset = m.keys.toFinset := by
    apply Finset.eq_of_subset_of_card_le hfin
    rw [hcard1, hcard2]
    exact le_of_eq hlen
  intro k hk
  have hk2 : k ∈ m.keys.toFinset := List.mem_toFinset.mpr hk
  rw [← heq] at hk2
  exact List.mem_toFinset.mp hk2

theorem requestRunning_absent (s : ManagerState) (L : List SessionModel)
    (id : String) (hd : s.isDisposed = false) (hwf : WFMap s.models)
    (hnm : (L.map (fun x => x.id)).Nodup)
    (habs : ∀ x ∈ L, ¬ x.id = id) :
    ∀ v ∈ running ((requestRunning s (.ok L)).state), ¬ v.id = id := by
  by_cases hsc : shortCircuit s.models L
  · intro v hv hvid
    have hstate : (requestRunning s (.ok L)).state = s := by
      simp [requestRunning, hd, hsc]
    rw [hstate] at hv
    rcases List.mem_map.mp hv with ⟨p, hp, hpv⟩
    have hkey : p.1 = id := by rw [← hwf.2 p hp, hpv, hvid]
    have hkmem : p.1 ∈ s.models.keys := List.mem_map_of_mem _ hp
    have hidm := shortCircuit_keys s.models L hwf.1 hnm hsc p.1 hkmem
    rcases List.mem_map.mp hidm with ⟨x, hx, hxid⟩
    exact habs x hx (by rw [hxid, hkey])
  · intro v hv hvid
    have hstate : (requestRunning s (.ok L)).state.models = mapOfModels L := by
      simp [requestRunning, hd, hsc]
    rw [running, hstate] at hv
    exact habs v (mem_values_mapOfModels L v hv) hvid

/-- The token of the connection a call was made on. -/
def ConnEvent.tokenOf : ConnEvent → Nat
  | .update t _ => t
  | .dispose t => t

theorem fanOut_filter_not_mem (M : ModelMap) (conns : List Conn) (t : Nat)
    (h : t ∉ conns.map (fun c => c.token)) :
    (fanOut M conns).filter (fun ev => ev.tokenOf == t) = [] := by
  induction conns with
  | nil => rfl
  | cons c rest ih =>
    simp only [List.map_cons, List.mem_cons] at h
    push_neg at h
    have hb : (c.token == t) = false := by
      simp only [beq_eq_false_iff_ne, ne_eq]
      intro he
      exact h.1 he.symm
    have ihr := ih h.2
    simp only [fanOut] at ihr ⊢
    cases hg : M.get c.id with
    | some m =>
      simp [hg, List.filter_cons, ConnEvent.tokenOf, hb] at ihr ⊢
      exact ihr
    | none =>
      simp [hg, List.filter_cons, ConnEvent.tokenOf, hb] at ihr ⊢
      exact ihr

theorem fanOut_filter_token (M : ModelMap) (conns : List Conn) (c : Conn)
    (htok : (conns.map (fun x => x.token)).Nodup) (hc : c ∈ conns) :
    (fanOut M conns).filter (fun ev => ev.tokenOf == c.token) =
      [match M.get c.id with
       | some m => ConnEvent.update c.token m
       | none => ConnEvent.dispose c.token] := by
  induction conns with
  | nil => cases hc
  | cons c1 rest ih =>
    simp only [List.map_cons, List.nodup_cons] at htok
    rcases List.mem_cons.mp hc with rfl | hmem
    · have hrest := fanOut_filter_not_mem M rest c.token htok.1
      simp only [fanOut] at hrest ⊢
      cases hg : M.get c.id with
      | some m =>
        simp [hg, List.filter_cons, ConnEvent.tokenOf] at hrest ⊢
        exact hrest
      | none =>
        simp [hg, List.filter_cons, ConnEvent.tokenOf] at hrest ⊢
        exact hrest
    · have hne : (c1.token == c.token) = false := by
        simp only [beq_eq_false_iff_ne, ne_eq]
        intro he
        exact htok.1 (he ▸ List.mem_map_of_mem _ hmem)
      have ihr := ih htok.2 hmem
      simp only [fanOut] at ihr ⊢
      cases hg : M.get c1.id with
      | some m =>
        simp [hg, List.filter_cons, ConnEvent.tokenOf, hne] at ihr ⊢
        exact ihr
      | none =>
        simp [hg, List.filter_cons, ConnEvent.tokenOf, hne] at ihr ⊢
        exact ihr

/-! ### Lemmas about the server-side stop calls -/

theorem applyStop_sublist (sv : Server) (oracle : StopOracle) (id : String) :
    (applyStop sv oracle id).sessions.Sublist sv.sessions := by
  unfold applyStop
  by_cases h : (oracle id).removed
  · simp only [if_pos h]
    exact List.filter_sublist _
  · simp only [if_neg h]
    exact List.Sublist.refl _

theorem foldl_applyStop_sublist (ids : List String) (sv : Server)
    (oracle : StopOracle) :
    ((ids.foldl (fun acc i => applyStop acc oracle i) sv).sessions).Sublist
      sv.sessions := by
  induction ids generalizing sv with
  | nil => exact List.Sublist.refl _
  | cons i rest ih =>
    exact (ih (applyStop sv oracle i)).trans (applyStop_sublist sv oracle i)

theorem applyStop_removed (sv : Server) (oracle : StopOracle) (id : String)
    (h : (oracle id).removed = true) :
    ∀ m ∈ (applyStop sv oracle id).sessions, ¬ m.id = id := by
  unfold applyStop
  rw [if_pos h]
  intro m hm
  have := List.of_mem_filter hm
  simpa using this

theorem foldl_applyStop_removed (ids : List String) (sv : Server)
    (oracle : StopOracle) (id : String) (h : (oracle id).removed = true) :
    id ∈ ids →
    ∀ m ∈ (ids.foldl (fun acc i => applyStop acc oracle i) sv).sessions,
      ¬ m.id = id := by
  induction ids generalizing sv with
  | nil =>
    intro hid
    cases hid
  | cons i rest ih =>
    intro hid
    rcases List.mem_cons.mp hid with rfl | hmem
    · intro m hm
      have hms := (foldl_applyStop_sublist rest (applyStop sv oracle id)
        oracle).subset hm
      exact applyStop_removed sv oracle id h m hms
    · intro m hm
      exact ih (applyStop sv oracle i) hmem m hm

/-! ### Claim theorems -/

/-- C1: for every call to `requestRunning` in which the list operation
fails with any error, the local model map (indeed the whole manager
state) is left exactly unchanged and the error propagates to the
caller, with no connection calls and no `runningChanged` emission; when
the error is a network failure or carries HTTP status 503, a
`connectionFailure` notification carrying that error is additionally
emitted. -/
theorem requestRunning_failure_preserves_state (s : ManagerState)
    (e : JSError) :
    (requestRunning s (.err e)).state = s ∧
    (requestRunning s (.err e)).thrown = some e ∧
    (requestRunning s (.err e)).runningChangedEmits = [] ∧
    (requestRunning s (.err e)).connEvents = [] ∧
    ((e.isNetworkError = true ∨ e.responseStatus = some 503) →
      (requestRunning s (.err e)).connectionFailureEmits = [e]) := by
  refine ⟨rfl, rfl, rfl, rfl, fun h => ?_⟩
  have hc : isConnectionFailure e = true := by
    rcases h with h | h <;> simp [isConnectionFailure, h]
  simp [requestRunning, hc]

theorem requestRunning_failure_preserves_state_witness :
    (requestRunning
        { isDisposed := false
          models := [("A", { id := "A", path := "/a.ipynb", kernel := none })]
          conns := [] }
        (.err { isNetworkError := true, responseStatus := none })).state =
      { isDisposed := false
        models := [("A", { id := "A", path := "/a.ipynb", kernel := none })]
        conns := [] } ∧
    RunResult.connectionFailureEmits (requestRunning
        { isDisposed := false
          models := [("A", { id := "A", path := "/a.ipynb", kernel := none })]
          conns := [] }
        (.err { isNetworkError := true, responseStatus := none })) =
      [{ isNetworkError := true, responseStatus := none }] := by
  have h := requestRunning_failure_preserves_state
    { isDisposed := false
      models := [("A", { id := "A", path := "/a.ipynb", kernel := none })]
      conns := [] }
    { isNetworkError := true, responseStatus := none }
  exact ⟨h.1, h.2.2.2.2 (Or.inl rfl)⟩

/-- C2: a successful fetch on a non-disposed manager whose list has the
map's size and whose every model deep-equals the map's entry for its id
takes the short-circuit: the map is unchanged, no connection is updated
or disposed, nothing is emitted; a second run against the same list
again emits nothing. -/
theorem requestRunning_shortCircuit_noop (s : ManagerState)
    (models : List SessionModel) (hd : s.isDisposed = false)
    (hlen : s.models.size = models.length)
    (heq : ∀ x ∈ models, s.models.get x.id = some x) :
    requestRunning s (.ok models) =
      { state := s, connectionFailureEmits := [], runningChangedEmits := []
        connEvents := [], thrown := none } ∧
    (requestRunning ((requestRunning s (.ok models)).state)
        (.ok models)).runningChangedEmits = [] := by
  have hsc : shortCircuit s.models models = true :=
    (shortCircuit_iff s.models models).mpr ⟨hlen, heq⟩
  have h1 : requestRunning s (.ok models) =
      { state := s, connectionFailureEmits := [], runningChangedEmits := []
        connEvents := [], thrown := none } := by
    simp [requestRunning, hd, hsc]
  refine ⟨h1, ?_⟩
  rw [h1]
  simp [requestRunning, hd, hsc]

theorem requestRunning_shortCircuit_noop_witness :
    requestRunning
      { isDisposed := false
        models := [("A", { id := "A", path := "/a.ipynb", kernel := none })]
        conns := [{ token := 0, id := "A" }] }
      (.ok [{ id := "A", path := "/a.ipynb", kernel := none }]) =
      { state :=
          { isDisposed := false
            models := [("A", { id := "A", path := "/a.ipynb", kernel := none })]
            conns := [{ token := 0, id := "A" }] }
        connectionFailureEmits := [], runningChangedEmits := []
        connEvents := [], thrown := none } :=
  (requestRunning_shortCircuit_noop
    { isDisposed := false
      models := [("A", { id := "A", path := "/a.ipynb", kernel := none })]
      conns := [{ token := 0, id := "A" }] }
    [{ id := "A", path := "/a.ipynb", kernel := none }]
    rfl rfl (by decide)).1

/-- C3: a successful fetch on a non-disposed manager that fails the
short-circuit test replaces the local model map wholesale with the
fetched models keyed by id, makes exactly one `update`/`dispose` call
per registered connection (update when the connection's id is in the
new map, dispose when it is absent), and emits exactly one
`runningChanged` notification whose payload is the full fetched list. -/
theorem requestRunning_diff_update (s : ManagerState)
    (models : List SessionModel) (hd : s.isDisposed = false)
    (hsc : shortCircuit s.models models = false) :
    (requestRunning s (.ok models)).state.models = mapOfModels models ∧
    (requestRunning s (.ok models)).runningChangedEmits = [models] ∧
    (requestRunning s (.ok models)).connEvents =
      fanOut (mapOfModels models) s.conns ∧
    (∀ c ∈ s.conns, ∀ x, (mapOfModels models).get c.id = some x →
      ConnEvent.update c.token x ∈ (requestRunning s (.ok models)).connEvents) ∧
    (∀ c ∈ s.conns, (mapOfModels models).get c.id = none →
      ConnEvent.dispose c.token ∈ (requestRunning s (.ok models)).connEvents) ∧
    (requestRunning s (.ok models)).thrown = none := by
  have hconn : (requestRunning s (.ok models)).connEvents =
      fanOut (mapOfModels models) s.conns := by
    simp [requestRunning, hd, hsc]
  refine ⟨by simp [requestRunning, hd, hsc], by simp [requestRunning, hd, hsc],
    hconn, ?_, ?_, by simp [requestRunning, hd, hsc]⟩
  · intro c hc x hx
    rw [hconn]
    exact List.mem_map.mpr ⟨c, hc, by rw [hx]⟩
  · intro c hc hx
    rw [hconn]
    exact List.mem_map.mpr ⟨c, hc, by rw [hx]⟩

theorem requestRunning_diff_update_witness :
    shortCircuit
      (ManagerState.models
        { isDisposed := false
          models := [("A", { id := "A", path := "/a.ipynb", kernel := none }),
                     ("B", { id := "B", path := "/b.ipynb", kernel := none })]
          conns := [{ token := 0, id := "A" }, { token := 1, id := "B" }] })
      [{ id := "A", path := "/a2.ipynb", kernel := none },
       { id := "B", path := "/b.ipynb", kernel := none }] = false ∧
    RunResult.runningChangedEmits (requestRunning
        { isDisposed := false
          models := [("A", { id := "A", path := "/a.ipynb", kernel := none }),
                     ("B", { id := "B", path := "/b.ipynb", kernel := none })]
          conns := [{ token := 0, id := "A" }, { token := 1, id := "B" }] }
        (.ok [{ id := "A", path := "/a2.ipynb", kernel := none },
              { id := "B", path := "/b.ipynb", kernel := none }])) =
      [[{ id := "A", path := "/a2.ipynb", kernel := none },
        { id := "B", path := "/b.ipynb", kernel := none }]] :=
  ⟨by decide,
    (requestRunning_diff_update
      { isDisposed := false
        models := [("A", { id := "A", path := "/a.ipynb", kernel := none }),
                   ("B", { id := "B", path := "/b.ipynb", kernel := none })]
        conns := [{ token := 0, id := "A" }, { token := 1, id := "B" }] }
      [{ id := "A", path := "/a2.ipynb", kernel := none },
       { id := "B", path := "/b.ipynb", kernel := none }]
      rfl (by decide)).2.1⟩

/-- C4: when the fetched list holds two or more models sharing one id
and the run reaches the map-replacement step, the new map has exactly
one entry for that id, holding the last model with that id in fetch
order, and a registered connection bound to that id receives exactly
one call, an `update` carrying that winning model. -/
theorem requestRunning_duplicate_ids (s : ManagerState)
    (models : List SessionModel) (dupId : String)
    (hd : s.isDisposed = false) (hsc : shortCircuit s.models models = false)
    (hdup : 2 ≤ (models.filter (fun x => x.id == dupId)).length)
    (htok : (s.conns.map (fun c => c.token)).Nodup) :
    ∃ w, models.reverse.find? (fun x => x.id == dupId) = some w ∧
      (requestRunning s (.ok models)).state.models.get dupId = some w ∧
      (requestRunning s (.ok models)).state.models.keys.count dupId = 1 ∧
      ∀ c ∈ s.conns, c.id = dupId →
        (requestRunning s (.ok models)).connEvents.filter
          (fun ev => ev.tokenOf == c.token) = [ConnEvent.update c.token w] := by
  have hstate : (requestRunning s (.ok models)).state.models =
      mapOfModels models := by
    simp [requestRunning, hd, hsc]
  have hconn : (requestRunning s (.ok models)).connEvents =
      fanOut (mapOfModels models) s.conns := by
    simp [requestRunning, hd, hsc]
  have hex : ∃ x, x ∈ models.reverse ∧ (x.id == dupId) = true := by
    have hne : (models.filter (fun x => x.id == dupId)).length ≠ 0 := by omega
    have : models.filter (fun x => x.id == dupId) ≠ [] := by
      intro hnil
      rw [hnil] at hne
      exact hne rfl
    rcases List.exists_mem_of_ne_nil _ this with ⟨x, hx⟩
    have hx1 := List.mem_of_mem_filter hx
    have hx2 := List.of_mem_filter hx
    exact ⟨x, List.mem_reverse.mpr hx1, hx2⟩
  have hfs : (models.reverse.find? (fun x => x.id == dupId)).isSome := by
    rw [List.find?_isSome]
    exact hex
  rcases Option.isSome_iff_exists.mp hfs with ⟨w, hw⟩
  have hget : (mapOfModels models).get dupId = some w := by
    rw [mapOfModels_get]
    exact hw
  refine ⟨w, hw, by rw [hstate]; exact hget, ?_, ?_⟩
  · rw [hstate]
    exact List.count_eq_one_of_mem (mapOfModels_keys_nodup models)
      (ModelMap.mem_keys_of_get _ dupId hget)
  · intro c hc hcid
    rw [hconn, fanOut_filter_token (mapOfModels models) s.conns c htok hc,
      hcid, hget]

theorem requestRunning_duplicate_ids_witness :
    ∃ w, ([{ id := "B", path := "/b1.ipynb", kernel := none },
           { id := "B", path := "/b2.ipynb", kernel := none }] :
        List SessionModel).reverse.find? (fun x => x.id == "B") = some w ∧
      ModelMap.get (RunResult.state (requestRunning
          { isDisposed := false
            models := [("A", { id := "A", path := "/a.ipynb", kernel := none })]
            conns := [{ token := 7, id := "B" }] }
          (.ok [{ id := "B", path := "/b1.ipynb", kernel := none },
                { id := "B", path := "/b2.ipynb", kernel := none }]))).models
        "B" = some w ∧
      List.count "B" (ModelMap.keys (RunResult.state (requestRunning
          { isDisposed := false
            models := [("A", { id := "A", path := "/a.ipynb", kernel := none })]
            conns := [{ token := 7, id := "B" }] }
          (.ok [{ id := "B", path := "/b1.ipynb", kernel := none },
                { id := "B", path := "/b2.ipynb", kernel := none }]))).models) =
        1 ∧
      ∀ c ∈ ManagerState.conns
          { isDisposed := false
            models := [("A", { id := "A", path := "/a.ipynb", kernel := none })]
            conns := [{ token := 7, id := "B" }] }, c.id = "B" →
        List.filter (fun ev => ev.tokenOf == c.token)
          (RunResult.connEvents (requestRunning
            { isDisposed := false
              models := [("A", { id := "A", path := "/a.ipynb", kernel := none })]
              conns := [{ token := 7, id := "B" }] }
            (.ok [{ id := "B", path := "/b1.ipynb", kernel := none },
                  { id := "B", path := "/b2.ipynb", kernel := none }]))) =
          [ConnEvent.update c.token w] :=
  requestRunning_duplicate_ids
    { isDisposed := false
      models := [("A", { id := "A", path := "/a.ipynb", kernel := none })]
      conns := [{ token := 7, id := "B" }] }
    [{ id := "B", path := "/b1.ipynb", kernel := none },
     { id := "B", path := "/b2.ipynb", kernel := none }]
    "B" rfl (by decide) (by decide) (by decide)

/-! ### Concrete example data used by witnesses and counterexamples -/

/-- Example model with id `S1`. -/
def mS1 : SessionModel := { id := "S1", path := "/s1.ipynb", kernel := none }

/-- Example model with id `S2`. -/
def mS2 : SessionModel := { id := "S2", path := "/s2.ipynb", kernel := none }

/-- Example plain request failure (HTTP 500, not a network error). -/
def errX : JSError := { isNetworkError := false, responseStatus := some 500 }

/-- Example manager state before any fetch. -/
def sEmpty : ManagerState := { isDisposed := false, models := [], conns := [] }

/-- Example server holding sessions `S1` and `S2`. -/
def svTwo : Server := { sessions := [mS1, mS2] }

/-- Example oracle: stopping `S1` fails without removal, stopping
anything else succeeds and removes. -/
def oracleS1Fails : StopOracle := fun id =>
  if id = "S1" then { error := some errX, removed := false }
  else { error := none, removed := true }

/-- Example oracle: every stop call succeeds and removes. -/
def oracleAllSucceed : StopOracle := fun _ => { error := none, removed := true }

/-- C5: in a `shutdownAll` run where at least one stop call fails and at
least one succeeds (given the spec's data-model invariant that server
session ids are unique and the reachable-state invariants of the map),
a stop call is attempted for every currently known session id, the
overall call rejects, and every id whose stop succeeded and which the
server removed is absent from the `running()` snapshot after a
subsequent refresh. -/
theorem shutdownAll_mixed_failure (s : ManagerState) (sv : Server)
    (oracle : StopOracle) (hd : s.isDisposed = false) (hwf : WFMap s.models)
    (hsv : (sv.sessions.map (fun x => x.id)).Nodup)
    (hfail : ∃ a ∈ (shutdownAll s sv oracle).stopsAttempted,
      ((oracle a).error).isSome)
    (_hsucc : ∃ b ∈ (shutdownAll s sv oracle).stopsAttempted,
      (oracle b).error = none) :
    (shutdownAll s sv oracle).stopsAttempted =
      (requestRunning s (.ok sv.sessions)).state.models.keys ∧
    ((shutdownAll s sv oracle).thrown).isSome ∧
    ∀ id ∈ (shutdownAll s sv oracle).stopsAttempted,
      (oracle id).error = none → (oracle id).removed = true →
      ∀ v ∈ running ((requestRunning (shutdownAll s sv oracle).mgr
          (.ok ((shutdownAll s sv oracle).server.sessions))).state),
        ¬ v.id = id := by
  have hids : (shutdownAll s sv oracle).stopsAttempted =
      (requestRunning s (.ok sv.sessions)).state.models.keys := by
    simp only [shutdownAll]
    cases hfind : ((requestRunning s (.ok sv.sessions)).state.models.keys).find?
        (fun id => ((oracle id).error).isSome) <;> simp [hfind]
  have hsrv : (shutdownAll s sv oracle).server =
      ((requestRunning s (.ok sv.sessions)).state.models.keys).foldl
        (fun acc i => applyStop acc oracle i) sv := by
    simp only [shutdownAll]
    cases hfind : ((requestRunning s (.ok sv.sessions)).state.models.keys).find?
        (fun id => ((oracle id).error).isSome) <;> simp [hfind]
  have hfind_some : ∃ f,
      ((requestRunning s (.ok sv.sessions)).state.models.keys).find?
        (fun id => ((oracle id).error).isSome) = some f := by
    rw [← Option.isSome_iff_exists, List.find?_isSome]
    rcases hfail with ⟨a, ha, hae⟩
    rw [hids] at ha
    exact ⟨a, ha, hae⟩
  rcases hfind_some with ⟨f, hfind⟩
  have hfp := List.find?_some hfind
  have hthrown : (shutdownAll s sv oracle).thrown = (oracle f).error := by
    simp only [shutdownAll]
    rw [hfind]
  have hmgr : (shutdownAll s sv oracle).mgr =
      (requestRunning s (.ok sv.sessions)).state := by
    simp only [shutdownAll]
    rw [hfind]
  refine ⟨hids, by rw [hthrown]; exact hfp, ?_⟩
  intro id hid hsuc hrem v hv hvid
  rw [hids] at hid
  rw [hmgr, hsrv] at hv
  have hsub := foldl_applyStop_sublist
    ((requestRunning s (.ok sv.sessions)).state.models.keys) sv oracle
  have hnm2 : ((((requestRunning s (.ok sv.sessions)).state.models.keys).foldl
      (fun acc i => applyStop acc oracle i) sv).sessions.map
        (fun x => x.id)).Nodup :=
    (hsub.map (fun x => x.id)).nodup hsv
  have habs := foldl_applyStop_removed
    ((requestRunning s (.ok sv.sessions)).state.models.keys) sv oracle id
    hrem hid
  have hd2 : (requestRunning s (.ok sv.sessions)).state.isDisposed = false := by
    rw [requestRunning_isDisposed]
    exact hd
  have hwf2 : WFMap (requestRunning s (.ok sv.sessions)).state.models :=
    requestRunning_wf s (.ok sv.sessions) hwf
  exact requestRunning_absent (requestRunning s (.ok sv.sessions)).state
    _ id hd2 hwf2 hnm2 habs v hv hvid

theorem shutdownAll_mixed_failure_witness :
    (shutdownAll sEmpty svTwo oracleS1Fails).stopsAttempted =
      (requestRunning sEmpty (.ok svTwo.sessions)).state.models.keys ∧
    ((shutdownAll sEmpty svTwo oracleS1Fails).thrown).isSome ∧
    ∀ id ∈ (shutdownAll sEmpty svTwo oracleS1Fails).stopsAttempted,
      (oracleS1Fails id).error = none → (oracleS1Fails id).removed = true →
      ∀ v ∈ running ((requestRunning (shutdownAll sEmpty svTwo oracleS1Fails).mgr
          (.ok ((shutdownAll sEmpty svTwo oracleS1Fails).server.sessions))).state),
        ¬ v.id = id :=
  shutdownAll_mixed_failure sEmpty svTwo oracleS1Fails rfl (by decide)
    (by decide) ⟨"S1", by decide, by decide⟩ ⟨"S2", by decide, by decide⟩

/-- C6 counterexample: a `shutdown` whose stop call fails performs no
refresh at all — the rejected `await shutdownSession(...)` throws before
`this.refreshRunning()` is reached — refuting the claim that a refresh
is performed whether the stop call succeeds or fails. -/
theorem shutdown_failure_skips_refresh_counterexample :
    (shutdown sEmpty svTwo (fun _ => { error := some errX, removed := false })
      "S1").thrown = some errX ∧
    (shutdown sEmpty svTwo (fun _ => { error := some errX, removed := false })
      "S1").refreshes = 0 ∧
    (shutdown sEmpty svTwo (fun _ => { error := some errX, removed := false })
      "S1").mgr = sEmpty := by
  refine ⟨rfl, rfl, rfl⟩

/-- C6 amended: for every `shutdown(id)` call, when the stop call
succeeds a refresh is performed (re-syncing local state against the
post-stop server) and the call resolves; when the stop call fails its
error propagates to the caller and no refresh is performed, leaving
local state untouched. -/
theorem shutdown_refresh_amended (s : ManagerState) (sv : Server)
    (oracle : StopOracle) (id : String) :
    ((oracle id).error = none →
      (shutdown s sv oracle id).refreshes = 1 ∧
      (shutdown s sv oracle id).mgr =
        (requestRunning s (.ok ((applyStop sv oracle id).sessions))).state ∧
      (shutdown s sv oracle id).thrown = none) ∧
    (∀ e, (oracle id).error = some e →
      (shutdown s sv oracle id).refreshes = 0 ∧
      (shutdown s sv oracle id).mgr = s ∧
      (shutdown s sv oracle id).thrown = some e) := by
  constructor
  · intro h
    refine ⟨?_, ?_, ?_⟩ <;> simp [shutdown, h, requestRunning_ok_thrown]
  · intro e h
    refine ⟨?_, ?_, ?_⟩ <;> simp [shutdown, h]

theorem shutdown_refresh_amended_witness :
    (shutdown sEmpty svTwo oracleAllSucceed "S1").refreshes = 1 ∧
    (shutdown sEmpty svTwo oracleAllSucceed "S1").mgr =
      (requestRunning sEmpty
        (.ok ((applyStop svTwo oracleAllSucceed "S1").sessions))).state ∧
    (shutdown sEmpty svTwo oracleAllSucceed "S1").thrown = none :=
  (shutdown_refresh_amended sEmpty svTwo oracleAllSucceed "S1").1 rfl

theorem shutdown_stopsAttempted (s : ManagerState) (sv : Server)
    (oracle : StopOracle) (id : String) :
    (shutdown s sv oracle id).stopsAttempted = [id] := by
  unfold shutdown
  cases (oracle id).error <;> simp

/-- C7: `stopIfNeeded(path)` never rejects; when the fresh listing holds
two or more sessions at the path it makes no stop call; when it holds
exactly one it stops that session; a listing failure means no stop call
and no state change, and a failing stop call leaves local state
untouched with no refresh. -/
theorem stopIfNeeded_best_effort (s : ManagerState) (sv : Server)
    (oracle : StopOracle) (listErr : Option JSError) (path : String) :
    (stopIfNeeded s sv oracle listErr path).thrown = none ∧
    (listErr.isSome = true →
      stopIfNeeded s sv oracle listErr path =
        { mgr := s, server := sv, refreshes := 0, stopsAttempted := []
          thrown := none }) ∧
    (listErr = none →
      2 ≤ (sv.sessions.filter (fun v => v.path == path)).length →
      (stopIfNeeded s sv oracle listErr path).stopsAttempted = []) ∧
    (listErr = none → ∀ m,
      sv.sessions.filter (fun v => v.path == path) = [m] →
      (stopIfNeeded s sv oracle listErr path).stopsAttempted = [m.id]) ∧
    (listErr = none → ∀ m,
      sv.sessions.filter (fun v => v.path == path) = [m] →
      ((oracle m.id).error).isSome = true →
      (stopIfNeeded s sv oracle listErr path).refreshes = 0 ∧
      (stopIfNeeded s sv oracle listErr path).mgr = s) := by
  cases listErr with
  | some e =>
    refine ⟨rfl, fun _ => rfl, fun h => by simp at h, fun h => by simp at h,
      fun h => by simp at h⟩
  | none =>
    cases hm : sv.sessions.filter (fun v => v.path == path) with
    | nil =>
      have hval : stopIfNeeded s sv oracle none path =
          { mgr := s, server := sv, refreshes := 0, stopsAttempted := []
            thrown := none } := by
        simp [stopIfNeeded, hm]
      refine ⟨by rw [hval], fun h => by simp at h, fun _ _ => by rw [hval],
        fun _ m hm1 => ?_, fun _ m hm1 => ?_⟩
      · simp at hm1
      · simp at hm1
    | cons m1 rest =>
      cases rest with
      | nil =>
        have hval : stopIfNeeded s sv oracle none path =
            { shutdown s sv oracle m1.id with thrown := none } := by
          simp [stopIfNeeded, hm]
        refine ⟨by rw [hval], fun h => by simp at h, ?_, ?_, ?_⟩
        · intro _ hlen
          simp at hlen
        · intro _ m hm1
          have hm2 : m1 = m := by
            injection hm1 with h1 h2
          rw [hval, ← hm2]
          have := shutdown_stopsAttempted s sv oracle m1.id
          simpa using this
        · intro _ m hm1 herr
          have hm2 : m1 = m := by
            injection hm1 with h1 h2
          rcases Option.isSome_iff_exists.mp herr with ⟨e, he⟩
          rw [← hm2] at he
          constructor
          · rw [hval]
            have : (shutdown s sv oracle m1.id).refreshes = 0 := by
              simp [shutdown, he]
            simpa using this
          · rw [hval]
            have : (shutdown s sv oracle m1.id).mgr = s := by
              simp [shutdown, he]
            simpa using this
      | cons m2 rest2 =>
        have hval : stopIfNeeded s sv oracle none path =
            { mgr := s, server := sv, refreshes := 0, stopsAttempted := []
              thrown := none } := by
          simp [stopIfNeeded, hm]
        refine ⟨by rw [hval], fun h => by simp at h, fun _ _ => by rw [hval],
          fun _ m hm1 => ?_, fun _ m hm1 _ => ?_⟩
        · simp at hm1
        · simp at hm1

theorem stopIfNeeded_best_effort_witness :
    (stopIfNeeded sEmpty svTwo oracleAllSucceed none "/s1.ipynb").thrown =
      none ∧
    (stopIfNeeded sEmpty svTwo oracleAllSucceed none
      "/s1.ipynb").stopsAttempted = [mS1.id] := by
  have h := stopIfNeeded_best_effort sEmpty svTwo oracleAllSucceed none
    "/s1.ipynb"
  exact ⟨h.1, h.2.2.2.1 rfl mS1 (by decide)⟩

/-- C8: `findById` returns the cached model without refreshing when the
map has the id, and otherwise performs exactly one refresh and retries
the lookup over the refreshed map (yielding nothing when still absent);
`findByPath` does the same with a linear scan of the map's values. -/
theorem find_cache_then_refresh (s : ManagerState) (L : List SessionModel)
    (id path : String) :
    (s.models.hasKey id = true →
      findById s (.ok L) id =
        { found := s.models.get id, state := s, refreshes := 0
          thrown := none }) ∧
    (s.models.hasKey id = false →
      (findById s (.ok L) id).refreshes = 1 ∧
      (findById s (.ok L) id).found =
        (requestRunning s (.ok L)).state.models.get id) ∧
    (∀ m, s.models.values.find? (fun x => x.path == path) = some m →
      findByPath s (.ok L) path =
        { found := some m, state := s, refreshes := 0, thrown := none }) ∧
    (s.models.values.find? (fun x => x.path == path) = none →
      (findByPath s (.ok L) path).refreshes = 1 ∧
      (findByPath s (.ok L) path).found =
        ((requestRunning s (.ok L)).state.models.values).find?
          (fun x => x.path == path)) := by
  refine ⟨?_, ?_, ?_, ?_⟩
  · intro h
    simp [findById, h]
  · intro h
    constructor <;> simp [findById, h, requestRunning_ok_thrown]
  · intro m h
    simp [findByPath, h]
  · intro h
    constructor <;> simp [findByPath, h, requestRunning_ok_thrown]

theorem find_cache_then_refresh_witness :
    findById
      { isDisposed := false, models := [("S1", mS1)], conns := [] }
      (.ok [mS1, mS2]) "S1" =
      { found := some mS1
        state := { isDisposed := false, models := [("S1", mS1)], conns := [] }
        refreshes := 0, thrown := none } ∧
    (findById
      { isDisposed := false, models := [("S1", mS1)], conns := [] }
      (.ok [mS1, mS2]) "S2").refreshes = 1 := by
  have h1 := find_cache_then_refresh
    { isDisposed := false, models := [("S1", mS1)], conns := [] }
    [mS1, mS2] "S1" "/s1.ipynb"
  have h2 := find_cache_then_refresh
    { isDisposed := false, models := [("S1", mS1)], conns := [] }
    [mS1, mS2] "S2" "/s1.ipynb"
  refine ⟨?_, (h2.2.1 (by decide)).1⟩
  have := h1.1 (by decide)
  rw [this]
  have hget : ModelMap.get [("S1", mS1)] "S1" = some mS1 := by decide
  rw [hget]

/-- Example model with id `A`. -/
def mA : SessionModel := { id := "A", path := "/a.ipynb", kernel := none }

/-- Example model with id `B`. -/
def mB : SessionModel := { id := "B", path := "/b.ipynb", kernel := none }

/-- C9: with local map `{A ↦ mA, B ↦ mB}` and a duplicate-carrying
fetch `[mA, mA]`, the short-circuit test passes (sizes match and every
fetched model deep-equals the map entry at its id) even though the
fetched id multiset is `[A, A]` and lacks `B`, so the stale map — still
holding `B` — is retained, no connection is updated or disposed, and no
`runningChanged` notification is emitted. -/
theorem requestRunning_duplicate_shortCircuit_stale :
    shortCircuit [("A", mA), ("B", mB)] [mA, mA] = true ∧
    [mA, mA].map (fun x => x.id) = ["A", "A"] ∧
    ModelMap.hasKey [("A", mA), ("B", mB)] "B" = true ∧
    requestRunning
      { isDisposed := false, models := [("A", mA), ("B", mB)]
        conns := [{ token := 0, id := "A" }, { token := 1, id := "B" }] }
      (.ok [mA, mA]) =
      { state :=
          { isDisposed := false, models := [("A", mA), ("B", mB)]
            conns := [{ token := 0, id := "A" }, { token := 1, id := "B" }] }
        connectionFailureEmits := [], runningChangedEmits := []
        connEvents := [], thrown := none } := by
  refine ⟨by decide, by decide, by decide, by decide⟩

/-- C10: disposing the manager clears the local model map (so
`running()` becomes empty), issues a `dispose` call to every registered
connection in registration order, disposes the poller, and emits no
`runningChanged` notification; moreover any refresh run reaching a
disposed manager aborts without emitting. -/
theorem dispose_clears_without_emission (s : ManagerState) :
    running ((disposeManager s).state) = [] ∧
    (disposeManager s).state.models = [] ∧
    (disposeManager s).state.isDisposed = true ∧
    (disposeManager s).connEvents =
      s.conns.map (fun c => ConnEvent.dispose c.token) ∧
    (disposeManager s).runningChangedEmits = [] ∧
    (disposeManager s).pollerDisposed = true ∧
    ∀ f, (requestRunning (disposeManager s).state f).runningChangedEmits =
      [] := by
  refine ⟨rfl, rfl, rfl, rfl, rfl, rfl, fun f => ?_⟩
  cases f with
  | err e => rfl
  | ok L => rfl
